import Mathlib

set_option maxRecDepth 100000

/-!
# Verification of the Arbitrum DAO proposal decoder

A shallow embedding of the multi-layer governance calldata decoder
(`decode`, `decodeL1TimelockSchedule`, `handleScheduleCall`,
`handleUpradeExecutorCall` and the static `config`), together with an
ABI binary codec modelled from the specification (the repository
delegates the byte-level codec to an external library).

Calldata is represented as a list of bytes (`List Nat`, each entry a
byte value); addresses are 160-bit naturals; faults are an explicit
error type carrying the offending value that the thrown message
interpolates.
-/

namespace ArbDecoder

/-! ## Byte/word conversions -/

/-- Modelled from the spec: big-endian base-256 rendering of a natural
number into exactly `k` bytes (the 32-byte words of the ABI head/tail
encoding scheme). -/
def natToBytesBE : Nat → Nat → List Nat
  | 0, _ => []
  | k + 1, n => natToBytesBE k (n / 256) ++ [n % 256]

/-- Read a big-endian byte list back as a natural number. -/
def wordToNat (bs : List Nat) : Nat :=
  bs.foldl (fun acc b => acc * 256 + b) 0

theorem natToBytesBE_length (k n : Nat) : (natToBytesBE k n).length = k := by
  induction k generalizing n with
  | zero => rfl
  | succ k ih => simp [natToBytesBE, ih]

theorem wordToNat_append_singleton (bs : List Nat) (b : Nat) :
    wordToNat (bs ++ [b]) = wordToNat bs * 256 + b := by
  simp [wordToNat, List.foldl_append]

theorem wordToNat_natToBytesBE (k n : Nat) (h : n < 256 ^ k) :
    wordToNat (natToBytesBE k n) = n := by
  induction k generalizing n with
  | zero =>
    simp [natToBytesBE, wordToNat]
    omega
  | succ k ih =>
    have hdiv : n / 256 < 256 ^ k := by
      have : n < 256 * 256 ^ k := by
        calc n < 256 ^ (k + 1) := h
        _ = 256 * 256 ^ k := by ring
      exact Nat.div_lt_of_lt_mul this
    rw [natToBytesBE, wordToNat_append_singleton, ih _ hdiv]
    omega

/-! ## Slices of a byte buffer -/

/-- `sliceAt bs off s` states that `s` occurs in `bs` starting at
position `off`. -/
def sliceAt (bs : List Nat) (off : Nat) (s : List Nat) : Prop :=
  ∃ pre suf, bs = pre ++ s ++ suf ∧ pre.length = off

theorem sliceAt_len_le {bs : List Nat} {off : Nat} {s : List Nat}
    (h : sliceAt bs off s) : off + s.length ≤ bs.length := by
  obtain ⟨pre, suf, hbs, hlen⟩ := h
  subst hbs
  simp [List.length_append]
  omega

theorem sliceAt_append {bs : List Nat} {off : Nat} {s1 s2 : List Nat}
    (h : sliceAt bs off (s1 ++ s2)) :
    sliceAt bs off s1 ∧ sliceAt bs (off + s1.length) s2 := by
  obtain ⟨pre, suf, hbs, hlen⟩ := h
  constructor
  · exact ⟨pre, s2 ++ suf, by simp [hbs], hlen⟩
  · exact ⟨pre ++ s1, suf, by simp [hbs], by simp [hlen]⟩

theorem sliceAt_drop {bs : List Nat} {k off : Nat} {s : List Nat}
    (h : sliceAt bs (k + off) s) : sliceAt (bs.drop k) off s := by
  obtain ⟨pre, suf, hbs, hlen⟩ := h
  refine ⟨pre.drop k, suf, ?_, ?_⟩
  · rw [hbs, List.append_assoc, List.drop_append_of_le_length (by omega),
      ← List.append_assoc]
  · simp [hlen]

/-! ## ABI type schema and values

Modelled from the spec: the Binary Codec component — the repository
delegates byte-level ABI coding to an external library (`AbiCoder` /
`Interface.decodeFunctionData`), so the codec below follows the spec's
description of the standard ABI head/tail encoding scheme for the
parameter types the decoder uses: `uint256`, `address`, `bytes32`,
dynamic `bytes`, and arrays of each. -/

/-- The supported ABI parameter type tags. -/
inductive AbiType
  | uint256
  | address
  | bytes32
  | dynBytes
  | arrUint256
  | arrAddress
  | arrBytes32
  | arrDynBytes
deriving DecidableEq

/-- Decoded ABI values. `addr` is a 160-bit natural; `word` is a
32-byte fixed array; `bytes` is a dynamic byte string. -/
inductive AbiValue
  | uint (n : Nat)
  | addr (a : Nat)
  | word (s : List Nat)
  | bytes (b : List Nat)
  | uintArr (ws : List Nat)
  | addrArr (ws : List Nat)
  | wordArr (ss : List (List Nat))
  | bytesArr (bs : List (List Nat))
deriving DecidableEq

/-- `hasTypeB v ty`: the value `v` conforms to the type tag `ty`
(range bounds on numbers, 32-byte width of fixed words, and the ABI
limit that lengths fit in a 32-byte length word). -/
def hasTypeB : AbiValue → AbiType → Bool
  | .uint n, .uint256 => decide (n < 2 ^ 256)
  | .addr a, .address => decide (a < 2 ^ 160)
  | .word s, .bytes32 => decide (s.length = 32)
  | .bytes b, .dynBytes => decide (b.length < 2 ^ 256)
  | .uintArr ws, .arrUint256 =>
      decide (ws.length < 2 ^ 256) && ws.all (fun w => decide (w < 2 ^ 256))
  | .addrArr ws, .arrAddress =>
      decide (ws.length < 2 ^ 256) && ws.all (fun w => decide (w < 2 ^ 160))
  | .wordArr ss, .arrBytes32 =>
      decide (ss.length < 2 ^ 256) && ss.all (fun s => decide (s.length = 32))
  | .bytesArr bs, .arrDynBytes =>
      decide (bs.length < 2 ^ 256) && bs.all (fun b => decide (b.length < 2 ^ 256))
  | _, _ => false

/-- `hasTupleB vs tys`: the value list conforms pointwise to the type list. -/
def hasTupleB : List AbiValue → List AbiType → Bool
  | [], [] => true
  | v :: vs, ty :: tys => hasTypeB v ty && hasTupleB vs tys
  | _, _ => false

/-! ## ABI decoding -/

/-- Read the 32-byte big-endian word of `bs` starting at `off`;
fails when the buffer is too short. -/
def readWord (bs : List Nat) (off : Nat) : Option Nat :=
  if off + 32 ≤ bs.length then some (wordToNat ((bs.drop off).take 32)) else none

/-- Read `len` raw bytes of `bs` starting at `off`. -/
def readSlice (bs : List Nat) (off len : Nat) : Option (List Nat) :=
  if off + len ≤ bs.length then some ((bs.drop off).take len) else none

/-- Read a dynamic byte string stored at `off`: a 32-byte length word
followed by the data bytes. -/
def readBytesAt (bs : List Nat) (off : Nat) : Option (List Nat) :=
  match readWord bs off with
  | none => none
  | some len => readSlice bs (off + 32) len

/-- Read `n` consecutive 32-byte words starting at `off`. -/
def readWords (bs : List Nat) (off : Nat) : Nat → Option (List Nat)
  | 0 => some []
  | n + 1 =>
    match readWord bs off with
    | none => none
    | some w =>
      match readWords bs (off + 32) n with
      | none => none
      | some ws => some (w :: ws)

/-- Read `n` consecutive 32-byte slices starting at `off`. -/
def readSlices (bs : List Nat) (off : Nat) : Nat → Option (List (List Nat))
  | 0 => some []
  | n + 1 =>
    match readSlice bs off 32 with
    | none => none
    | some s =>
      match readSlices bs (off + 32) n with
      | none => none
      | some ss => some (s :: ss)

/-- Read `n` dynamic byte strings out of an element block `bs`: the
`i`-th head word at `hOff + 32*i` is an offset (relative to the start
of `bs`) of a length-prefixed byte string. -/
def readBytesSeq (bs : List Nat) (hOff : Nat) : Nat → Option (List (List Nat))
  | 0 => some []
  | n + 1 =>
    match readWord bs hOff with
    | none => none
    | some o =>
      match readBytesAt bs o with
      | none => none
      | some b =>
        match readBytesSeq bs (hOff + 32) n with
        | none => none
        | some bsRest => some (b :: bsRest)

/-- Decode one parameter of type `ty` whose head word sits at `hOff`
inside the parameter block `block`. Dynamic types store a head offset
pointing at their tail data, relative to the block start. -/
def decodeValue (ty : AbiType) (block : List Nat) (hOff : Nat) : Option AbiValue :=
  match ty with
  | .uint256 =>
    match readWord block hOff with
    | none => none
    | some w => some (.uint w)
  | .address =>
    match readWord block hOff with
    | none => none
    | some w => if w < 2 ^ 160 then some (.addr w) else none
  | .bytes32 =>
    match readSlice block hOff 32 with
    | none => none
    | some s => some (.word s)
  | .dynBytes =>
    match readWord block hOff with
    | none => none
    | some o =>
      match readBytesAt block o with
      | none => none
      | some b => some (.bytes b)
  | .arrUint256 =>
    match readWord block hOff with
    | none => none
    | some o =>
      match readWord block o with
      | none => none
      | some n =>
        match readWords block (o + 32) n with
        | none => none
        | some ws => some (.uintArr ws)
  | .arrAddress =>
    match readWord block hOff with
    | none => none
    | some o =>
      match readWord block o with
      | none => none
      | some n =>
        match readWords block (o + 32) n with
        | none => none
        | some ws =>
          if ws.all (fun w => decide (w < 2 ^ 160)) then some (.addrArr ws)
          else none
  | .arrBytes32 =>
    match readWord block hOff with
    | none => none
    | some o =>
      match readWord block o with
      | none => none
      | some n =>
        match readSlices block (o + 32) n with
        | none => none
        | some ss => some (.wordArr ss)
  | .arrDynBytes =>
    match readWord block hOff with
    | none => none
    | some o =>
      match readWord block o with
      | none => none
      | some n =>
        match readBytesSeq (block.drop (o + 32)) 0 n with
        | none => none
        | some bs => some (.bytesArr bs)

/-- Decode the fields of a parameter block against a type list, heads
read at consecutive 32-byte positions starting at `hOff`. -/
def decodeFields (tys : List AbiType) (block : List Nat) (hOff : Nat) :
    Option (List AbiValue) :=
  match tys with
  | [] => some []
  | ty :: rest =>
    match decodeValue ty block hOff with
    | none => none
    | some v =>
      match decodeFields rest block (hOff + 32) with
      | none => none
      | some vs => some (v :: vs)

/-- Decode a full parameter block against a type list. -/
def abiDecode (tys : List AbiType) (block : List Nat) : Option (List AbiValue) :=
  decodeFields tys block 0

/-! ## ABI encoding -/

/-- Length of a byte string padded up to a multiple of 32. -/
def pad32len (n : Nat) : Nat := 32 * ((n + 31) / 32)

/-- Tail encoding of a dynamic byte string: length word, data,
zero padding to a 32-byte boundary. -/
def encBytesTail (b : List Nat) : List Nat :=
  natToBytesBE 32 b.length ++ b ++ List.replicate (pad32len b.length - b.length) 0

/-- Lay out heads and tails of a sequence of items. Each item is
either static (`false`, its 32-byte head word) or dynamic (`true`,
its tail bytes); `off` is the block-relative position where the first
tail will land. Returns (heads, tails). -/
def encHT : List (Bool × List Nat) → Nat → List Nat × List Nat
  | [], _ => ([], [])
  | (false, w) :: rest, off =>
    let ht := encHT rest off
    (w ++ ht.1, ht.2)
  | (true, tl) :: rest, off =>
    let ht := encHT rest (off + tl.length)
    (natToBytesBE 32 off ++ ht.1, tl ++ ht.2)

/-- A full parameter block: heads then tails, tails starting right
after the `32 * n` head bytes. -/
def encBlock (items : List (Bool × List Nat)) : List Nat :=
  let ht := encHT items (32 * items.length)
  ht.1 ++ ht.2

/-- Head-or-tail item of one ABI value. -/
def encItem : AbiValue → Bool × List Nat
  | .uint n => (false, natToBytesBE 32 n)
  | .addr a => (false, natToBytesBE 32 a)
  | .word s => (false, s)
  | .bytes b => (true, encBytesTail b)
  | .uintArr ws =>
      (true, natToBytesBE 32 ws.length ++ (ws.map (natToBytesBE 32)).flatten)
  | .addrArr ws =>
      (true, natToBytesBE 32 ws.length ++ (ws.map (natToBytesBE 32)).flatten)
  | .wordArr ss => (true, natToBytesBE 32 ss.length ++ ss.flatten)
  | .bytesArr bs =>
      (true, natToBytesBE 32 bs.length ++
        encBlock (bs.map (fun b => (true, encBytesTail b))))

/-- Encode a value list as an ABI parameter block. -/
def abiEncode (vs : List AbiValue) : List Nat := encBlock (vs.map encItem)

/-! ## Decoding recovers what was encoded -/

theorem pow256_32 : (256 : Nat) ^ 32 = 2 ^ 256 := by norm_num

theorem pow160_le_pow256 : (2 : Nat) ^ 160 ≤ 2 ^ 256 := by norm_num

theorem sliceAt_readSlice {bs : List Nat} {off : Nat} {s : List Nat}
    (h : sliceAt bs off s) : readSlice bs off s.length = some s := by
  have hle : off + s.length ≤ bs.length := sliceAt_len_le h
  obtain ⟨pre, suf, hbs, hlen⟩ := h
  rw [readSlice, if_pos hle]
  congr 1
  subst hbs
  subst hlen
  rw [List.append_assoc, List.drop_left, List.take_left]

theorem readWord_sliceAt {bs : List Nat} {off x : Nat}
    (h : sliceAt bs off (natToBytesBE 32 x)) (hx : x < 2 ^ 256) :
    readWord bs off = some x := by
  have hle := sliceAt_len_le h
  rw [natToBytesBE_length] at hle
  have hs := sliceAt_readSlice h
  rw [natToBytesBE_length, readSlice, if_pos hle] at hs
  rw [readWord, if_pos hle]
  injection hs with hs
  rw [hs, wordToNat_natToBytesBE 32 x (by rw [pow256_32]; exact hx)]

theorem readBytesAt_sliceAt {bs : List Nat} {off : Nat} {b : List Nat}
    (h : sliceAt bs off (encBytesTail b)) (hb : b.length < 2 ^ 256) :
    readBytesAt bs off = some b := by
  rw [encBytesTail, List.append_assoc] at h
  obtain ⟨h1, h2⟩ := sliceAt_append h
  rw [natToBytesBE_length] at h2
  obtain ⟨h2b, _⟩ := sliceAt_append h2
  simp [readBytesAt, readWord_sliceAt h1 hb, sliceAt_readSlice h2b]

theorem readWords_flatten {bs : List Nat} (ws : List Nat) :
    ∀ off : Nat, (∀ w ∈ ws, w < 2 ^ 256) →
      sliceAt bs off ((ws.map (natToBytesBE 32)).flatten) →
      readWords bs off ws.length = some ws := by
  induction ws with
  | nil => intro off _ _; rfl
  | cons w ws ih =>
    intro off hws hsl
    rw [List.map_cons, List.flatten_cons] at hsl
    obtain ⟨h1, h2⟩ := sliceAt_append hsl
    rw [natToBytesBE_length] at h2
    have hw : w < 2 ^ 256 := hws w (List.mem_cons_self w ws)
    have ihr := ih (off + 32) (fun x hx => hws x (List.mem_cons_of_mem _ hx)) h2
    simp [readWords, readWord_sliceAt h1 hw, ihr]

theorem readSlices_flatten {bs : List Nat} (ss : List (List Nat)) :
    ∀ off : Nat, (∀ s ∈ ss, s.length = 32) →
      sliceAt bs off ss.flatten →
      readSlices bs off ss.length = some ss := by
  induction ss with
  | nil => intro off _ _; rfl
  | cons s ss ih =>
    intro off hss hsl
    rw [List.flatten_cons] at hsl
    obtain ⟨h1, h2⟩ := sliceAt_append hsl
    have hs32 : s.length = 32 := hss s (List.mem_cons_self s ss)
    rw [hs32] at h2
    have h1' := sliceAt_readSlice h1
    rw [hs32] at h1'
    have ihr := ih (off + 32) (fun x hx => hss x (List.mem_cons_of_mem _ hx)) h2
    simp [readSlices, h1', ihr]

theorem encHT_fst_length_dyn (bs : List (List Nat)) :
    ∀ base : Nat,
      (encHT (bs.map (fun b => (true, encBytesTail b))) base).1.length
        = 32 * bs.length := by
  induction bs with
  | nil => intro base; rfl
  | cons b bs ih =>
    intro base
    simp only [List.map_cons, encHT, List.length_append, natToBytesBE_length,
      List.length_cons, ih]
    ring

theorem readBytesSeq_encHT {inner : List Nat} (hinner : inner.length < 2 ^ 256)
    (bs : List (List Nat)) :
    ∀ hOff base : Nat, (∀ b ∈ bs, b.length < 2 ^ 256) →
      sliceAt inner hOff (encHT (bs.map (fun b => (true, encBytesTail b))) base).1 →
      sliceAt inner base (encHT (bs.map (fun b => (true, encBytesTail b))) base).2 →
      readBytesSeq inner hOff bs.length = some bs := by
  induction bs with
  | nil => intro hOff base _ _ _; rfl
  | cons b bs ih =>
    intro hOff base hlen hheads htails
    simp only [List.map_cons, encHT] at hheads htails
    obtain ⟨hh1, hh2⟩ := sliceAt_append hheads
    rw [natToBytesBE_length] at hh2
    obtain ⟨ht1, ht2⟩ := sliceAt_append htails
    have hbase : base < 2 ^ 256 := by
      have := sliceAt_len_le ht1
      omega
    have hb : b.length < 2 ^ 256 := hlen b (List.mem_cons_self b bs)
    have hoff := readWord_sliceAt hh1 hbase
    have hbytes := readBytesAt_sliceAt ht1 hb
    have ihr := ih (hOff + 32) (base + (encBytesTail b).length)
      (fun x hx => hlen x (List.mem_cons_of_mem _ hx)) hh2 ht2
    simp [readBytesSeq, hoff, hbytes, ihr]

theorem encHT_fst_length_tup :
    ∀ (vs : List AbiValue) (tys : List AbiType), hasTupleB vs tys = true →
      ∀ base : Nat, (encHT (vs.map encItem) base).1.length = 32 * vs.length := by
  intro vs
  induction vs with
  | nil => intro tys _ base; rfl
  | cons v vs ih =>
    intro tys htup base
    cases tys with
    | nil => simp [hasTupleB] at htup
    | cons ty tys =>
      rw [hasTupleB, Bool.and_eq_true] at htup
      obtain ⟨hty, htup⟩ := htup
      have ihr := ih tys htup
      cases v <;> cases ty <;> simp [hasTypeB] at hty <;>
        simp [encItem, encHT, natToBytesBE_length, ihr] <;>
        omega

theorem decodeFields_encHT {block : List Nat} (hblock : block.length < 2 ^ 256) :
    ∀ (vs : List AbiValue) (tys : List AbiType) (hOff base : Nat),
      hasTupleB vs tys = true →
      sliceAt block hOff (encHT (vs.map encItem) base).1 →
      sliceAt block base (encHT (vs.map encItem) base).2 →
      decodeFields tys block hOff = some vs := by
  intro vs
  induction vs with
  | nil =>
    intro tys hOff base htup _ _
    cases tys with
    | nil => rfl
    | cons ty tys => simp [hasTupleB] at htup
  | cons v vs ih =>
    intro tys hOff base htup hheads htails
    cases tys with
    | nil => simp [hasTupleB] at htup
    | cons ty tys =>
      rw [hasTupleB, Bool.and_eq_true] at htup
      obtain ⟨hty, htup⟩ := htup
      cases v with
      | uint n =>
        cases ty <;> simp [hasTypeB] at hty
        simp only [List.map_cons, encItem, encHT] at hheads htails
        obtain ⟨hh1, hh2⟩ := sliceAt_append hheads
        rw [natToBytesBE_length] at hh2
        have hrest := ih tys (hOff + 32) base htup hh2 htails
        simp [decodeFields, decodeValue, readWord_sliceAt hh1 hty, hrest]
      | addr a =>
        cases ty <;> simp [hasTypeB] at hty
        simp only [List.map_cons, encItem, encHT] at hheads htails
        obtain ⟨hh1, hh2⟩ := sliceAt_append hheads
        rw [natToBytesBE_length] at hh2
        have ha256 : a < 2 ^ 256 := lt_of_lt_of_le hty pow160_le_pow256
        have hrest := ih tys (hOff + 32) base htup hh2 htails
        simp [decodeFields, decodeValue, readWord_sliceAt hh1 ha256, hty, hrest]
      | word s =>
        cases ty <;> simp [hasTypeB] at hty
        simp only [List.map_cons, encItem, encHT] at hheads htails
        obtain ⟨hh1, hh2⟩ := sliceAt_append hheads
        rw [hty] at hh2
        have h1' := sliceAt_readSlice hh1
        rw [hty] at h1'
        have hrest := ih tys (hOff + 32) base htup hh2 htails
        simp [decodeFields, decodeValue, h1', hrest]
      | bytes b =>
        cases ty <;> simp [hasTypeB] at hty
        simp only [List.map_cons, encItem, encHT] at hheads htails
        obtain ⟨hh1, hh2⟩ := sliceAt_append hheads
        rw [natToBytesBE_length] at hh2
        obtain ⟨ht1, ht2⟩ := sliceAt_append htails
        have hbase : base < 2 ^ 256 := by
          have := sliceAt_len_le ht1
          omega
        have hrest := ih tys (hOff + 32) _ htup hh2 ht2
        simp [decodeFields, decodeValue, readWord_sliceAt hh1 hbase,
          readBytesAt_sliceAt ht1 hty, hrest]
      | uintArr ws =>
        cases ty <;> simp [hasTypeB, List.all_eq_true] at hty
        obtain ⟨hwlen, hel⟩ := hty
        simp only [List.map_cons, encItem, encHT] at hheads htails
        obtain ⟨hh1, hh2⟩ := sliceAt_append hheads
        rw [natToBytesBE_length] at hh2
        obtain ⟨ht1, ht2⟩ := sliceAt_append htails
        obtain ⟨ht1a, ht1b⟩ := sliceAt_append ht1
        rw [natToBytesBE_length] at ht1b
        have hbase : base < 2 ^ 256 := by
          have := sliceAt_len_le ht1a
          omega
        have hwords := readWords_flatten ws (base + 32) hel ht1b
        have hrest := ih tys (hOff + 32) _ htup hh2 ht2
        simp [decodeFields, decodeValue, readWord_sliceAt hh1 hbase,
          readWord_sliceAt ht1a hwlen, hwords, hrest]
      | addrArr ws =>
        cases ty <;> simp [hasTypeB, List.all_eq_true] at hty
        obtain ⟨hwlen, hel⟩ := hty
        simp only [List.map_cons, encItem, encHT] at hheads htails
        obtain ⟨hh1, hh2⟩ := sliceAt_append hheads
        rw [natToBytesBE_length] at hh2
        obtain ⟨ht1, ht2⟩ := sliceAt_append htails
        obtain ⟨ht1a, ht1b⟩ := sliceAt_append ht1
        rw [natToBytesBE_length] at ht1b
        have hbase : base < 2 ^ 256 := by
          have := sliceAt_len_le ht1a
          omega
        have hel256 : ∀ w ∈ ws, w < 2 ^ 256 := fun w hw =>
          lt_of_lt_of_le (hel w hw) pow160_le_pow256
        have hwords := readWords_flatten ws (base + 32) hel256 ht1b
        have hall : ws.all (fun w => decide (w < 2 ^ 160)) = true :=
          List.all_eq_true.mpr (fun w hw => decide_eq_true (hel w hw))
        have hrest := ih tys (hOff + 32) _ htup hh2 ht2
        simp [decodeFields, decodeValue, readWord_sliceAt hh1 hbase,
          readWord_sliceAt ht1a hwlen, hwords, hall, hrest]
        rw [if_pos hel]
      | wordArr ss =>
        cases ty <;> simp [hasTypeB, List.all_eq_true] at hty
        obtain ⟨hwlen, hel⟩ := hty
        simp only [List.map_cons, encItem, encHT] at hheads htails
        obtain ⟨hh1, hh2⟩ := sliceAt_append hheads
        rw [natToBytesBE_length] at hh2
        obtain ⟨ht1, ht2⟩ := sliceAt_append htails
        obtain ⟨ht1a, ht1b⟩ := sliceAt_append ht1
        rw [natToBytesBE_length] at ht1b
        have hbase : base < 2 ^ 256 := by
          have := sliceAt_len_le ht1a
          omega
        have hslices := readSlices_flatten ss (base + 32) hel ht1b
        have hrest := ih tys (hOff + 32) _ htup hh2 ht2
        simp [decodeFields, decodeValue, readWord_sliceAt hh1 hbase,
          readWord_sliceAt ht1a hwlen, hslices, hrest]
      | bytesArr bs =>
        cases ty <;> simp [hasTypeB, List.all_eq_true] at hty
        obtain ⟨hblen, hel⟩ := hty
        simp only [List.map_cons, encItem, encHT] at hheads htails
        obtain ⟨hh1, hh2⟩ := sliceAt_append hheads
        rw [natToBytesBE_length] at hh2
        obtain ⟨ht1, ht2⟩ := sliceAt_append htails
        obtain ⟨ht1a, ht1b⟩ := sliceAt_append ht1
        rw [natToBytesBE_length] at ht1b
        simp only [encBlock, List.length_map] at ht1b
        obtain ⟨hIb1, hIb2⟩ := sliceAt_append ht1b
        rw [encHT_fst_length_dyn] at hIb2
        have hinnerH : sliceAt (block.drop (base + 32)) 0
            (encHT (bs.map (fun b => (true, encBytesTail b))) (32 * bs.length)).1 := by
          apply sliceAt_drop
          simpa using hIb1
        have hinnerT : sliceAt (block.drop (base + 32)) (32 * bs.length)
            (encHT (bs.map (fun b => (true, encBytesTail b))) (32 * bs.length)).2 := by
          apply sliceAt_drop
          exact hIb2
        have hinlen : (block.drop (base + 32)).length < 2 ^ 256 := by
          rw [List.length_drop]
          omega
        have hbase : base < 2 ^ 256 := by
          have := sliceAt_len_le ht1a
          omega
        have hseq := readBytesSeq_encHT hinlen bs 0 (32 * bs.length) hel hinnerH hinnerT
        have hrest := ih tys (hOff + 32) _ htup hh2 ht2
        simp [decodeFields, decodeValue, readWord_sliceAt hh1 hbase,
          readWord_sliceAt ht1a hblen, hseq, hrest]

/-- Round-trip law of the Binary Codec: decoding an encoded value list
against its type list recovers the values (for blocks whose offsets fit
in a 32-byte word, as the ABI requires). -/
theorem abiDecode_abiEncode (tys : List AbiType) (vs : List AbiValue)
    (htup : hasTupleB vs tys = true)
    (hlen : (abiEncode vs).length < 2 ^ 256) :
    abiDecode tys (abiEncode vs) = some vs := by
  have hkey : abiEncode vs
      = (encHT (vs.map encItem) (32 * vs.length)).1
        ++ (encHT (vs.map encItem) (32 * vs.length)).2 := by
    simp [abiEncode, encBlock, List.length_map]
  have hheads : sliceAt (abiEncode vs) 0
      (encHT (vs.map encItem) (32 * vs.length)).1 :=
    ⟨[], (encHT (vs.map encItem) (32 * vs.length)).2, by simp [hkey], rfl⟩
  have htails : sliceAt (abiEncode vs) (32 * vs.length)
      (encHT (vs.map encItem) (32 * vs.length)).2 :=
    ⟨(encHT (vs.map encItem) (32 * vs.length)).1, [], by simp [hkey],
      encHT_fst_length_tup vs tys htup _⟩
  show decodeFields tys (abiEncode vs) 0 = some vs
  exact decodeFields_encHT hlen vs tys 0 (32 * vs.length) htup hheads htails

/-! ## Function selectors

The 4-byte selectors of the configured ABI signatures (first four
bytes of the hash of the canonical signature string; the hash itself
is computed by the external library, so the derived constants are
taken as given). -/

/-- Selector of `schedule(address,uint256,bytes,bytes32,bytes32,uint256)`. -/
def selSchedule : List Nat := [0x01, 0xd5, 0x06, 0x2a]

/-- Selector of
`scheduleBatch(address[],uint256[],bytes[],bytes32,bytes32,uint256)`. -/
def selScheduleBatch : List Nat := [0x8f, 0x2a, 0x0b, 0xb0]

/-- Selector of `execute(address,bytes)`. -/
def selExecute : List Nat := [0x1c, 0xff, 0x79, 0xcd]

/-- Selector of `executeCall(address,bytes)`. -/
def selExecuteCall : List Nat := [0xbc, 0xa8, 0xc7, 0xb5]

/-- Selector of `sendTxToL1(address,bytes)` from the ArbSys ABI. -/
def selSendTxToL1 : List Nat := [0x92, 0x8c, 0x16, 0x9a]

/-- Selector of the zero-argument `perform()`; the source compares the
whole action payload against this literal (`0xb147f40c`). -/
def selPerform : List Nat := [0xb1, 0x47, 0xf4, 0x0c]

/-- Parameter types of `schedule`. -/
def scheduleTys : List AbiType :=
  [.address, .uint256, .dynBytes, .bytes32, .bytes32, .uint256]

/-- Parameter types of `scheduleBatch`. -/
def scheduleBatchTys : List AbiType :=
  [.arrAddress, .arrUint256, .arrDynBytes, .bytes32, .bytes32, .uint256]

/-- Parameter types of `execute` and `executeCall`. -/
def executeTys : List AbiType := [.address, .dynBytes]

/-- Parameter types of `sendTxToL1`. -/
def sendTxToL1Tys : List AbiType := [.address, .dynBytes]

/-- Parameter types of the retryable-ticket envelope tuple. -/
def retryableTys : List AbiType :=
  [.address, .address, .uint256, .uint256, .uint256, .dynBytes]

/-- `Interface.decodeFunctionData`: check the leading 4-byte selector
and decode the remaining calldata against the fragment's parameter
types. -/
def decodeFunctionData (sel : List Nat) (tys : List AbiType)
    (calldata : List Nat) : Option (List AbiValue) :=
  if calldata.take 4 = sel then abiDecode tys (calldata.drop 4) else none

/-! ## Static configuration (`config.ts`) -/

/-- A known chain: chain ID, inbox address, upgrade-executor address. -/
structure ArbChain where
  chainID : Nat
  inboxAddress : Nat
  upgradeExecutorAddress : Nat
deriving DecidableEq

/-- The static routing configuration. -/
structure Config where
  retryableMagic : Nat
  l1UpgradeExecutor : Nat
  chains : List ArbChain
deriving DecidableEq

/-- The repository's static `config` value. -/
def config : Config :=
  { retryableMagic := 0xa723C008e76E379c55599D2E4d93879BeaFDa79C
    l1UpgradeExecutor := 0x3ffFbAdAF827559da092217e474760E2b2c3CeDd
    chains :=
      [ { chainID := 42162
          inboxAddress := 0x4Dbd4fc535Ac27206064B68FfCf827b0A60BAB3f
          upgradeExecutorAddress := 0xCF57572261c7c2BCF21ffD220ea7d1a27D40A827 }
      , { chainID := 42170
          inboxAddress := 0xc4448b71118c9071Bcb9734A0EAc55D18A153949
          upgradeExecutorAddress := 0x86a02dD71363c440b21F4c0E5B2Ad01Ffe1A7482 } ] }

/-! ## The action model and decode faults -/

/-- The call type of a produced action. -/
inductive ActionType
  | CALL
  | DELEGATECALL
deriving DecidableEq

/-- The terminal output record. For `DELEGATECALL` the `address` is the
action contract; for `CALL` it is the target. `decodedCallData` is the
empty string when no human-readable decoding is available. -/
structure Action where
  type : ActionType
  address : Nat
  chainID : Nat
  callData : List Nat
  decodedCallData : String
deriving DecidableEq

/-- The faults thrown by the decoder, carrying the offending value
that the thrown message interpolates. -/
inductive DecodeErr
  | noTimelockMethod
  | noUpgradeExecutorMethod
  | unrecognizedInbox (inbox : Nat)
  | unrecognizedTarget (target : Nat)
  | directInboxCall
  | abiDecodeFault
  | missingPayload
deriving DecidableEq

/-! ## The decode pipeline (`decoder.ts`) -/

/-- `handleUpradeExecutorCall` (the source's spelling): decode a
payload against the upgrade-executor ABI and build the terminal
Action. The first argument is unused, as in the source. -/
def handleUpradeExecutorCall (_target : Nat) (payload : List Nat)
    (chainID : Nat) : Except DecodeErr Action :=
  if payload.take 4 = selExecute then
    match decodeFunctionData selExecute executeTys payload with
    | some [.addr actionContractAddress, .bytes actionPayload] =>
      .ok { type := .DELEGATECALL
            address := actionContractAddress
            chainID
            callData := actionPayload
            decodedCallData := if actionPayload = selPerform then "perform()" else "" }
    | _ => .error .abiDecodeFault
  else if payload.take 4 = selExecuteCall then
    match decodeFunctionData selExecuteCall executeTys payload with
    | some [.addr address, .bytes callData] =>
      .ok { type := .CALL, address, chainID, callData, decodedCallData := "" }
    | _ => .error .abiDecodeFault
  else .error .noUpgradeExecutorMethod

/-- `handleScheduleCall`: route one (target, payload) pair by target
address — upgrade executor, retryable envelope, or fault. -/
def handleScheduleCall (target : Nat) (payload : List Nat) :
    Except DecodeErr Action :=
  if target = config.l1UpgradeExecutor then
    handleUpradeExecutorCall target payload 1
  else if target = config.retryableMagic then
    match abiDecode retryableTys payload with
    | some [.addr inbox, .addr targetAddr, .uint _, .uint _, .uint _,
        .bytes payload2] =>
      match config.chains.find? (fun entry => entry.inboxAddress == inbox) with
      | none => .error (.unrecognizedInbox inbox)
      | some chain => handleUpradeExecutorCall targetAddr payload2 chain.chainID
    | _ => .error .abiDecodeFault
  else if config.chains.any (fun chain => chain.inboxAddress == target) then
    .error .directInboxCall
  else .error (.unrecognizedTarget target)

/-- The `scheduleBatch` loop: `decoded[0].map((_, i) => handleScheduleCall
{target: decoded[0][i], payload: decoded[2][i]})` — iterate the targets
with their index, pairing each with the payload at the same index; a
thrown fault aborts the whole map. -/
def schedulePairs (payloads : List (List Nat)) :
    List Nat → Nat → Except DecodeErr (List Action)
  | [], _ => .ok []
  | t :: ts, i =>
    match
      (match payloads[i]? with
       | some p => handleScheduleCall t p
       | none => .error .missingPayload) with
    | .error e => .error e
    | .ok a =>
      match schedulePairs payloads ts (i + 1) with
      | .error e => .error e
      | .ok rest => .ok (a :: rest)

/-- `decodeL1TimelockSchedule`: match the timelock entry points
(`schedule` / `scheduleBatch`) and produce the action list. -/
def decodeL1TimelockSchedule (calldata : List Nat) :
    Except DecodeErr (List Action) :=
  if calldata.take 4 = selScheduleBatch then
    match decodeFunctionData selScheduleBatch scheduleBatchTys calldata with
    | some [.addrArr targets, .uintArr _, .bytesArr payloads, .word _,
        .word _, .uint _] => schedulePairs payloads targets 0
    | _ => .error .abiDecodeFault
  else if calldata.take 4 = selSchedule then
    match decodeFunctionData selSchedule scheduleTys calldata with
    | some [.addr target, .uint _, .bytes data, .word _, .word _, .uint _] =>
      match handleScheduleCall target data with
      | .error e => .error e
      | .ok a => .ok [a]
    | _ => .error .abiDecodeFault
  else .error .noTimelockMethod

/-- `decode`: if the input is a `sendTxToL1` relay wrapper, unwrap one
layer and decode its `data` field at the timelock layer; otherwise the
input already is timelock-layer calldata. -/
def decode (calldata : List Nat) : Except DecodeErr (List Action) :=
  if calldata.take 4 = selSendTxToL1 then
    match decodeFunctionData selSendTxToL1 sendTxToL1Tys calldata with
    | some [.addr _, .bytes data] => decodeL1TimelockSchedule data
    | _ => .error .abiDecodeFault
  else decodeL1TimelockSchedule calldata

/-! ## Pipeline structure lemmas -/

theorem decodeFunctionData_take4 {sel : List Nat} {tys : List AbiType}
    {cd : List Nat} {vs : List AbiValue}
    (h : decodeFunctionData sel tys cd = some vs) : cd.take 4 = sel := by
  by_contra hne
  rw [decodeFunctionData, if_neg hne] at h
  exact Option.noConfusion h

theorem handleUpradeExecutorCall_chainID {t : Nat} {p : List Nat} {cid : Nat}
    {a : Action} (h : handleUpradeExecutorCall t p cid = .ok a) :
    a.chainID = cid := by
  unfold handleUpradeExecutorCall at h
  split at h
  · split at h
    · rw [Except.ok.injEq] at h
      subst h
      rfl
    · cases h
  · split at h
    · split at h
      · rw [Except.ok.injEq] at h
        subst h
        rfl
      · cases h
    · cases h

theorem schedulePairs_ok (payloads : List (List Nat)) :
    ∀ (ts : List Nat) (i : Nat) (acts : List Action),
      schedulePairs payloads ts i = .ok acts →
      acts.length = ts.length ∧
      ∀ j t, ts[j]? = some t →
        ∃ p a, payloads[i + j]? = some p ∧ handleScheduleCall t p = .ok a ∧
          acts[j]? = some a := by
  intro ts
  induction ts with
  | nil =>
    intro i acts h
    simp only [schedulePairs, Except.ok.injEq] at h
    subst h
    refine ⟨rfl, ?_⟩
    intro j t hj
    simp at hj
  | cons t ts ih =>
    intro i acts h
    simp only [schedulePairs] at h
    rcases hp : payloads[i]? with _ | p
    · simp only [hp] at h
      exact Except.noConfusion h
    · simp only [hp] at h
      rcases hh : handleScheduleCall t p with e | a
      · simp only [hh] at h
        exact Except.noConfusion h
      · simp only [hh] at h
        rcases hr : schedulePairs payloads ts (i + 1) with e | rest
        · simp only [hr] at h
          exact Except.noConfusion h
        · simp only [hr, Except.ok.injEq] at h
          subst h
          obtain ⟨hlen, hcorr⟩ := ih (i + 1) rest hr
          refine ⟨by simp [hlen], ?_⟩
          intro j t' hj
          cases j with
          | zero =>
            simp only [List.getElem?_cons_zero, Option.some.injEq] at hj
            subst hj
            exact ⟨p, a, by simpa using hp, hh, by simp⟩
          | succ k =>
            simp only [List.getElem?_cons_succ] at hj
            obtain ⟨p', a', hp', hh', ha'⟩ := hcorr k t' hj
            refine ⟨p', a', ?_, hh', by simpa using ha'⟩
            have harith : i + (k + 1) = i + 1 + k := by omega
            rw [harith]
            exact hp'

theorem decodeL1TimelockSchedule_batch {cd : List Nat} {targets values : List Nat}
    {payloads : List (List Nat)} {pr sa : List Nat} {dl : Nat}
    (hdec : decodeFunctionData selScheduleBatch scheduleBatchTys cd
      = some [.addrArr targets, .uintArr values, .bytesArr payloads,
          .word pr, .word sa, .uint dl]) :
    decodeL1TimelockSchedule cd = schedulePairs payloads targets 0 := by
  have h4 := decodeFunctionData_take4 hdec
  rw [decodeL1TimelockSchedule, if_pos h4, hdec]

theorem decodeL1TimelockSchedule_schedule {cd : List Nat} {target v : Nat}
    {d pr sa : List Nat} {dl : Nat}
    (hdec : decodeFunctionData selSchedule scheduleTys cd
      = some [.addr target, .uint v, .bytes d, .word pr, .word sa, .uint dl]) :
    decodeL1TimelockSchedule cd
      = match handleScheduleCall target d with
        | .error e => .error e
        | .ok a => .ok [a] := by
  have h4 := decodeFunctionData_take4 hdec
  have hne : cd.take 4 ≠ selScheduleBatch := by rw [h4]; decide
  rw [decodeL1TimelockSchedule, if_neg hne, if_pos h4, hdec]

/-! ## Concrete example inputs

Shared concrete calldata, used to instantiate the theorems: the
spec's scenario `schedule(upgradeExecutorAddr, 0, executeCalldata,
0x0, 0x0, 86400)` and variants. -/

/-- A 32-byte zero word. -/
def w0 : List Nat := List.replicate 32 0

/-- `executeCall(0xabcd, 0x12345678)` calldata. -/
def exInnerExecCall : List Nat :=
  selExecuteCall ++ abiEncode [.addr 0xABCD, .bytes [0x12, 0x34, 0x56, 0x78]]

/-- `execute(0x1111, 0xb147f40c)` calldata (a perform action). -/
def exInnerExec : List Nat :=
  selExecute ++ abiEncode [.addr 0x1111, .bytes selPerform]

/-- `schedule(l1UpgradeExecutor, 0, exInnerExecCall, 0x0, 0x0, 86400)`. -/
def exSchedCd : List Nat :=
  selSchedule ++ abiEncode [.addr config.l1UpgradeExecutor, .uint 0,
    .bytes exInnerExecCall, .word w0, .word w0, .uint 86400]

/-- The same schedule with different value, predecessor, salt, delay. -/
def exSchedCd2 : List Nat :=
  selSchedule ++ abiEncode [.addr config.l1UpgradeExecutor, .uint 7,
    .bytes exInnerExecCall, .word (List.replicate 32 1),
    .word (List.replicate 32 2), .uint 123]

/-- A two-element `scheduleBatch` over the upgrade executor. -/
def exBatchCd : List Nat :=
  selScheduleBatch ++ abiEncode
    [.addrArr [config.l1UpgradeExecutor, config.l1UpgradeExecutor],
     .uintArr [0, 0], .bytesArr [exInnerExecCall, exInnerExec],
     .word w0, .word w0, .uint 86400]

/-- The action produced for `exInnerExecCall` on the home chain. -/
def exActCall : Action :=
  { type := .CALL, address := 0xABCD, chainID := 1,
    callData := [0x12, 0x34, 0x56, 0x78], decodedCallData := "" }

/-- The action produced for `exInnerExec` on the home chain. -/
def exActDelegate : Action :=
  { type := .DELEGATECALL, address := 0x1111, chainID := 1,
    callData := selPerform, decodedCallData := "perform()" }

/-- The decoded output of `exBatchCd`. -/
def exBatchActs : List Action := [exActCall, exActDelegate]

/-- A retryable envelope towards the configured Arbitrum One inbox. -/
def exRetryPayload : List Nat :=
  abiEncode [.addr 0x4Dbd4fc535Ac27206064B68FfCf827b0A60BAB3f, .addr 0x2222,
    .uint 5, .uint 6, .uint 7, .bytes exInnerExecCall]

/-- The action produced for `exRetryPayload`. -/
def exRetryAct : Action :=
  { type := .CALL, address := 0xABCD, chainID := 42162,
    callData := [0x12, 0x34, 0x56, 0x78], decodedCallData := "" }

/-- A retryable envelope with an unconfigured inbox address. -/
def exBadRetryPayload : List Nat :=
  abiEncode [.addr 0x9999, .addr 0x2222, .uint 5, .uint 6, .uint 7,
    .bytes exInnerExecCall]

/-- `sendTxToL1(0x64, exSchedCd)` wrapper calldata. -/
def exWrappedCd : List Nat :=
  selSendTxToL1 ++ abiEncode [.addr 0x64, .bytes exSchedCd]

/-! ## Claim theorems -/

/-- C1: for valid `schedule` calldata, `decodeL1TimelockSchedule`
returns exactly one Action; for valid `scheduleBatch` calldata with N
targets it returns exactly N Actions in input order, the j-th produced
from the pair `(targets[j], payloads[j])`. -/
theorem c1_action_counts (cd : List Nat) :
    (∀ acts, cd.take 4 = selSchedule → decodeL1TimelockSchedule cd = .ok acts →
      acts.length = 1) ∧
    (∀ targets values payloads pr sa dl acts,
      decodeFunctionData selScheduleBatch scheduleBatchTys cd
        = some [.addrArr targets, .uintArr values, .bytesArr payloads,
            .word pr, .word sa, .uint dl] →
      decodeL1TimelockSchedule cd = .ok acts →
      acts.length = targets.length ∧
      ∀ (j : Nat) (t : Nat), targets[j]? = some t →
        ∃ p a, payloads[j]? = some p ∧ handleScheduleCall t p = .ok a ∧
          acts[j]? = some a) := by
  constructor
  · intro acts hsel hok
    have hne : cd.take 4 ≠ selScheduleBatch := by rw [hsel]; decide
    rw [decodeL1TimelockSchedule, if_neg hne, if_pos hsel] at hok
    split at hok
    · split at hok
      · exact Except.noConfusion hok
      · rw [Except.ok.injEq] at hok
        subst hok
        rfl
    · exact Except.noConfusion hok
  · intro targets values payloads pr sa dl acts hdec hok
    rw [decodeL1TimelockSchedule_batch hdec] at hok
    obtain ⟨hlen, hcorr⟩ := schedulePairs_ok payloads targets 0 acts hok
    refine ⟨hlen, ?_⟩
    intro j t hj
    obtain ⟨p, a, hp, hh, ha⟩ := hcorr j t hj
    exact ⟨p, a, by simpa using hp, hh, ha⟩

/-- Witness for C1 at the concrete two-element batch `exBatchCd`. -/
theorem c1_action_counts_witness :
    exBatchActs.length
      = ([config.l1UpgradeExecutor, config.l1UpgradeExecutor] : List Nat).length :=
  ((c1_action_counts exBatchCd).2
    [config.l1UpgradeExecutor, config.l1UpgradeExecutor] [0, 0]
    [exInnerExecCall, exInnerExec] w0 w0 86400 exBatchActs
    (by rfl) (by rfl)).1

/-- C2: at the executor layer, an `execute(address,bytes)` payload
produces a DELEGATECALL Action at the decoded action-contract address
with the decoded action calldata; an `executeCall(address,bytes)`
payload produces a CALL Action at the decoded target with the decoded
target calldata and empty `decodedCallData`; any other selector
faults. -/
theorem c2_executor_dispatch (t : Nat) (payload : List Nat) (cid : Nat) :
    (∀ a p, decodeFunctionData selExecute executeTys payload
        = some [.addr a, .bytes p] →
      ∃ dcd, handleUpradeExecutorCall t payload cid
        = .ok { type := .DELEGATECALL, address := a, chainID := cid,
                callData := p, decodedCallData := dcd }) ∧
    (∀ a p, decodeFunctionData selExecuteCall executeTys payload
        = some [.addr a, .bytes p] →
      handleUpradeExecutorCall t payload cid
        = .ok { type := .CALL, address := a, chainID := cid,
                callData := p, decodedCallData := "" }) ∧
    (payload.take 4 ≠ selExecute → payload.take 4 ≠ selExecuteCall →
      handleUpradeExecutorCall t payload cid = .error .noUpgradeExecutorMethod) := by
  refine ⟨?_, ?_, ?_⟩
  · intro a p h
    have h4 := decodeFunctionData_take4 h
    rw [handleUpradeExecutorCall, if_pos h4, h]
    exact ⟨_, rfl⟩
  · intro a p h
    have h4 := decodeFunctionData_take4 h
    have hne : payload.take 4 ≠ selExecute := by rw [h4]; decide
    rw [handleUpradeExecutorCall, if_neg hne, if_pos h4, h]
  · intro hne1 hne2
    rw [handleUpradeExecutorCall, if_neg hne1, if_neg hne2]

/-- Witness for C2 at the concrete `executeCall` payload. -/
theorem c2_executor_dispatch_witness :
    handleUpradeExecutorCall config.l1UpgradeExecutor exInnerExecCall 1
      = .ok { type := .CALL, address := 0xABCD, chainID := 1,
              callData := [0x12, 0x34, 0x56, 0x78], decodedCallData := "" } :=
  (c2_executor_dispatch config.l1UpgradeExecutor exInnerExecCall 1).2.1
    0xABCD [0x12, 0x34, 0x56, 0x78] (by rfl)

/-- C3: a pair targeting the retryable router decodes its payload as
the 6-tuple (address,address,uint256,uint256,uint256,bytes); with the
inbox matched to a configured chain, the result is the executor-layer
decode of the inner payload against the inner target, and any produced
Action's chainID is that chain's ID. -/
theorem c3_retryable_envelope (payload : List Nat) (inbox tAddr v1 v2 v3 : Nat)
    (inner : List Nat) (chain : ArbChain)
    (hdec : abiDecode retryableTys payload
      = some [.addr inbox, .addr tAddr, .uint v1, .uint v2, .uint v3,
          .bytes inner])
    (hfind : config.chains.find? (fun entry => entry.inboxAddress == inbox)
      = some chain) :
    handleScheduleCall config.retryableMagic payload
      = handleUpradeExecutorCall tAddr inner chain.chainID ∧
    ∀ act, handleScheduleCall config.retryableMagic payload = .ok act →
      act.chainID = chain.chainID := by
  have hne : config.retryableMagic ≠ config.l1UpgradeExecutor := by decide
  have heq : handleScheduleCall config.retryableMagic payload
      = handleUpradeExecutorCall tAddr inner chain.chainID := by
    rw [handleScheduleCall, if_neg hne, if_pos rfl]
    simp only [hdec]
    rw [hfind]
  exact ⟨heq, fun act hok =>
    handleUpradeExecutorCall_chainID (heq.symm.trans hok)⟩

/-- Witness for C3 at the concrete Arbitrum One envelope. -/
theorem c3_retryable_envelope_witness :
    handleScheduleCall config.retryableMagic exRetryPayload
      = handleUpradeExecutorCall 0x2222 exInnerExecCall 42162 :=
  (c3_retryable_envelope exRetryPayload
    0x4Dbd4fc535Ac27206064B68FfCf827b0A60BAB3f 0x2222 5 6 7 exInnerExecCall
    { chainID := 42162,
      inboxAddress := 0x4Dbd4fc535Ac27206064B68FfCf827b0A60BAB3f,
      upgradeExecutorAddress := 0xCF57572261c7c2BCF21ffD220ea7d1a27D40A827 }
    (by rfl) (by rfl)).1

/-- C4: a target that is neither the upgrade executor nor the
retryable router never classifies to a non-fault result: a known inbox
address fails as an unsupported direct inbox call, anything else as an
unrecognized-target fault carrying the offending address (which the
thrown message interpolates). -/
theorem c4_unrecognized_target (target : Nat) (payload : List Nat)
    (h1 : target ≠ config.l1UpgradeExecutor)
    (h2 : target ≠ config.retryableMagic) :
    handleScheduleCall target payload =
      .error (if config.chains.any (fun chain => chain.inboxAddress == target)
        then .directInboxCall else .unrecognizedTarget target) := by
  rw [handleScheduleCall, if_neg h1, if_neg h2]
  by_cases hc : config.chains.any (fun chain => chain.inboxAddress == target) = true
  · simp [hc]
  · simp [hc]

/-- Witness for C4 at an unknown address. -/
theorem c4_unrecognized_target_witness :
    handleScheduleCall 0x1234 []
      = .error (if config.chains.any (fun chain => chain.inboxAddress == 0x1234)
          then .directInboxCall else .unrecognizedTarget 0x1234) :=
  c4_unrecognized_target 0x1234 [] (by decide) (by decide)

/-- C5 counterexample: the claim asserts `decodedCallData = "perform()"`
whenever the decoded action payload's 4-byte selector is `0xb147f40c`;
at this input the payload's selector is `0xb147f40c` but the payload
has one extra byte, and the source's whole-payload comparison leaves
`decodedCallData` empty. -/
theorem c5_perform_counterexample :
    handleUpradeExecutorCall config.l1UpgradeExecutor
        (selExecute ++ abiEncode [.addr 0x1111, .bytes (selPerform ++ [0x00])]) 1
      = .ok { type := .DELEGATECALL, address := 0x1111, chainID := 1,
              callData := selPerform ++ [0x00], decodedCallData := "" }
    ∧ (selPerform ++ [0x00]).take 4 = selPerform
    ∧ ("" : String) ≠ "perform()" :=
  ⟨by rfl, by decide, by decide⟩

/-- C5 (amended): inside an `execute` call, `decodedCallData` is
`"perform()"` exactly when the decoded action payload is the literal
4-byte value `0xb147f40c` (with nothing after it), and empty
otherwise. -/
theorem c5_perform_literal (t : Nat) (payload : List Nat) (cid : Nat)
    (a : Nat) (p : List Nat)
    (h : decodeFunctionData selExecute executeTys payload
      = some [.addr a, .bytes p]) :
    ∃ act, handleUpradeExecutorCall t payload cid = .ok act ∧
      act.decodedCallData = (if p = selPerform then "perform()" else "") := by
  have h4 := decodeFunctionData_take4 h
  rw [handleUpradeExecutorCall, if_pos h4, h]
  exact ⟨_, rfl, rfl⟩

/-- Witness for the amended C5 at an exact perform payload. -/
theorem c5_perform_literal_witness :
    ∃ act, handleUpradeExecutorCall config.l1UpgradeExecutor exInnerExec 1
        = .ok act ∧
      act.decodedCallData = (if selPerform = selPerform then "perform()" else "") :=
  c5_perform_literal config.l1UpgradeExecutor exInnerExec 1 0x1111 selPerform
    (by rfl)

/-- C6: a `sendTxToL1`-selector input is unwrapped exactly one layer,
its decoded inner `data` field becoming the timelock-layer calldata;
any other input is decoded at the timelock layer unchanged. -/
theorem c6_outer_dispatch (cd : List Nat) :
    (∀ dest data, decodeFunctionData selSendTxToL1 sendTxToL1Tys cd
        = some [.addr dest, .bytes data] →
      decode cd = decodeL1TimelockSchedule data) ∧
    (cd.take 4 ≠ selSendTxToL1 → decode cd = decodeL1TimelockSchedule cd) := by
  constructor
  · intro dest data h
    have h4 := decodeFunctionData_take4 h
    rw [decode, if_pos h4, h]
  · intro hne
    rw [decode, if_neg hne]

/-- Witness for C6 at the concrete wrapped schedule. -/
theorem c6_outer_dispatch_witness :
    decode exWrappedCd = decodeL1TimelockSchedule exSchedCd :=
  (c6_outer_dispatch exWrappedCd).1 0x64 exSchedCd (by rfl)

/-- C7: an envelope inbox with no configured ChainDescriptor fails with
the unrecognized-inbox fault carrying that inbox address; and a batch
containing any faulting pair yields a fault for the whole input, never
a partial action list. -/
theorem c7_unrecognized_inbox :
    (∀ payload inbox tAddr v1 v2 v3 inner,
      abiDecode retryableTys payload
        = some [.addr inbox, .addr tAddr, .uint v1, .uint v2, .uint v3,
            .bytes inner] →
      config.chains.find? (fun entry => entry.inboxAddress == inbox) = none →
      handleScheduleCall config.retryableMagic payload
        = .error (.unrecognizedInbox inbox)) ∧
    (∀ cd targets values payloads pr sa dl (j : Nat) t p e,
      decodeFunctionData selScheduleBatch scheduleBatchTys cd
        = some [.addrArr targets, .uintArr values, .bytesArr payloads,
            .word pr, .word sa, .uint dl] →
      targets[j]? = some t → payloads[j]? = some p →
      handleScheduleCall t p = .error e →
      ∃ e2, decodeL1TimelockSchedule cd = .error e2) := by
  constructor
  · intro payload inbox tAddr v1 v2 v3 inner hdec hmiss
    have hne : config.retryableMagic ≠ config.l1UpgradeExecutor := by decide
    rw [handleScheduleCall, if_neg hne, if_pos rfl]
    simp only [hdec]
    rw [hmiss]
  · intro cd targets values payloads pr sa dl j t p e hdec hj hp herr
    rw [decodeL1TimelockSchedule_batch hdec]
    rcases hres : schedulePairs payloads targets 0 with e2 | acts
    · exact ⟨e2, rfl⟩
    · obtain ⟨-, hcorr⟩ := schedulePairs_ok payloads targets 0 acts hres
      obtain ⟨p', a, hp', hok, -⟩ := hcorr j t hj
      simp only [Nat.zero_add] at hp'
      rw [hp] at hp'
      injection hp' with hpe
      subst hpe
      rw [herr] at hok
      exact Except.noConfusion hok

/-- Witness for C7 at the concrete unknown-inbox envelope. -/
theorem c7_unrecognized_inbox_witness :
    handleScheduleCall config.retryableMagic exBadRetryPayload
      = .error (.unrecognizedInbox 0x9999) :=
  c7_unrecognized_inbox.1 exBadRetryPayload 0x9999 0x2222 5 6 7 exInnerExecCall
    (by rfl) (by rfl)

/-- C8: round-trip law of the codec — decoding the encoding of a
well-typed value list against its type list yields the values back
(spec-modelled, since the byte-level codec lives in the external
library). -/
theorem c8_roundtrip (tys : List AbiType) (vs : List AbiValue)
    (htup : hasTupleB vs tys = true)
    (hlen : (abiEncode vs).length < 2 ^ 256) :
    abiDecode tys (abiEncode vs) = some vs :=
  abiDecode_abiEncode tys vs htup hlen

/-- Witness for C8 at a value of every supported parameter type. -/
theorem c8_roundtrip_witness :
    abiDecode
      [.uint256, .address, .bytes32, .dynBytes, .arrUint256, .arrAddress,
        .arrBytes32, .arrDynBytes]
      (abiEncode
        [.uint 5, .addr 0xABCD, .word w0, .bytes [1, 2, 3],
          .uintArr [9, 2 ^ 255], .addrArr [0x1111], .wordArr [w0],
          .bytesArr [[4, 5], []]])
      = some
        [.uint 5, .addr 0xABCD, .word w0, .bytes [1, 2, 3],
          .uintArr [9, 2 ^ 255], .addrArr [0x1111], .wordArr [w0],
          .bytesArr [[4, 5], []]] :=
  c8_roundtrip
    [.uint256, .address, .bytes32, .dynBytes, .arrUint256, .arrAddress,
      .arrBytes32, .arrDynBytes]
    [.uint 5, .addr 0xABCD, .word w0, .bytes [1, 2, 3],
      .uintArr [9, 2 ^ 255], .addrArr [0x1111], .wordArr [w0],
      .bytesArr [[4, 5], []]]
    (by decide) (by decide)

/-- C9: two schedule (or scheduleBatch) calldatas that agree on the
target(s) and payload(s) but differ in values, predecessor, salt and
delay decode to identical output. -/
theorem c9_value_salt_delay_independence (cd1 cd2 : List Nat) :
    (∀ t v1 v2 d pr1 pr2 sa1 sa2 dl1 dl2,
      decodeFunctionData selSchedule scheduleTys cd1
        = some [.addr t, .uint v1, .bytes d, .word pr1, .word sa1, .uint dl1] →
      decodeFunctionData selSchedule scheduleTys cd2
        = some [.addr t, .uint v2, .bytes d, .word pr2, .word sa2, .uint dl2] →
      decodeL1TimelockSchedule cd1 = decodeL1TimelockSchedule cd2) ∧
    (∀ ts vs1 vs2 ps pr1 pr2 sa1 sa2 dl1 dl2,
      decodeFunctionData selScheduleBatch scheduleBatchTys cd1
        = some [.addrArr ts, .uintArr vs1, .bytesArr ps,
            .word pr1, .word sa1, .uint dl1] →
      decodeFunctionData selScheduleBatch scheduleBatchTys cd2
        = some [.addrArr ts, .uintArr vs2, .bytesArr ps,
            .word pr2, .word sa2, .uint dl2] →
      decodeL1TimelockSchedule cd1 = decodeL1TimelockSchedule cd2) := by
  constructor
  · intro t v1 v2 d pr1 pr2 sa1 sa2 dl1 dl2 h1 h2
    rw [decodeL1TimelockSchedule_schedule h1, decodeL1TimelockSchedule_schedule h2]
  · intro ts vs1 vs2 ps pr1 pr2 sa1 sa2 dl1 dl2 h1 h2
    rw [decodeL1TimelockSchedule_batch h1, decodeL1TimelockSchedule_batch h2]

/-- Witness for C9: two concrete schedules differing in value,
predecessor, salt and delay decode identically. -/
theorem c9_value_salt_delay_independence_witness :
    decodeL1TimelockSchedule exSchedCd = decodeL1TimelockSchedule exSchedCd2 :=
  (c9_value_salt_delay_independence exSchedCd exSchedCd2).1
    config.l1UpgradeExecutor 0 7 exInnerExecCall w0 (List.replicate 32 1)
    w0 (List.replicate 32 2) 86400 123 (by rfl) (by rfl)

/-- C10: an envelope whose decoded inbox address is the configured
Arbitrum One inbox `0x4Dbd4fc535Ac27206064B68FfCf827b0A60BAB3f`
produces an Action whose chainID is the configured 42162, not the
canonical Arbitrum One chain ID 42161. -/
theorem c10_arbitrum_one_chain_id (payload : List Nat) (tAddr v1 v2 v3 : Nat)
    (inner : List Nat)
    (hdec : abiDecode retryableTys payload
      = some [.addr 0x4Dbd4fc535Ac27206064B68FfCf827b0A60BAB3f, .addr tAddr,
          .uint v1, .uint v2, .uint v3, .bytes inner]) :
    ∀ act, handleScheduleCall config.retryableMagic payload = .ok act →
      act.chainID = 42162 ∧ act.chainID ≠ 42161 := by
  intro act hok
  have hne : config.retryableMagic ≠ config.l1UpgradeExecutor := by decide
  have hfind : config.chains.find?
      (fun entry =>
        entry.inboxAddress == 0x4Dbd4fc535Ac27206064B68FfCf827b0A60BAB3f)
      = some { chainID := 42162,
               inboxAddress := 0x4Dbd4fc535Ac27206064B68FfCf827b0A60BAB3f,
               upgradeExecutorAddress :=
                 0xCF57572261c7c2BCF21ffD220ea7d1a27D40A827 } := by rfl
  rw [handleScheduleCall, if_neg hne, if_pos rfl] at hok
  simp only [hdec, hfind] at hok
  have hcid := handleUpradeExecutorCall_chainID hok
  have hcid42 : act.chainID = 42162 := hcid
  exact ⟨hcid42, by rw [hcid42]; decide⟩

/-- Witness for C10 at the concrete Arbitrum One envelope. -/
theorem c10_arbitrum_one_chain_id_witness :
    exRetryAct.chainID = 42162 ∧ exRetryAct.chainID ≠ 42161 :=
  c10_arbitrum_one_chain_id exRetryPayload 0x2222 5 6 7 exInnerExecCall
    (by rfl) exRetryAct (by rfl)

end ArbDecoder
